import Mathlib

/-!
Verification of the Retrieval & Grounding Engine of the AI-Powered 360
Learning backend (FastAPI service).  The Python services are shallowly
embedded as pure Lean functions: collaborator outcomes (the Supabase
tables and RPC calls, the Python parser of the ast module) are explicit
inputs, exceptions are modelled with Except, floating-point scores are
modelled as exact rationals, and machine strings as Lean strings
restricted to ASCII where Python and Lean character predicates coincide.
-/

set_option maxHeartbeats 1000000

/-! ## Python string primitives -/

/-- ASCII whitespace as recognised by Python's str.strip and the regex
class backslash-s: space, tab, newline, carriage return, vertical tab and
form feed.  All inputs considered here are ASCII, where this predicate
coincides with Python's. -/
def pyIsSpace (c : Char) : Bool :=
  c = ' ' || c = '\t' || c = '\n' || c = '\r' || c = '\x0b' || c = '\x0c'

/-- Python str.strip on a character list: drop leading and trailing
whitespace. -/
def pyStripL (l : List Char) : List Char :=
  ((l.dropWhile pyIsSpace).reverse.dropWhile pyIsSpace).reverse

/-- Python str.strip. -/
def pyStrip (s : String) : String :=
  String.mk (pyStripL s.data)

/-- Python str.lower (ASCII). -/
def pyLower (s : String) : String :=
  String.mk (s.data.map Char.toLower)

/-- Python substring membership, the expression needle in hay: the needle
occurs contiguously inside the haystack. -/
def strContains (hay needle : String) : Bool :=
  decide (needle.data <:+: hay.data)

/-- Maximal runs of characters satisfying p, with an accumulator holding
the reversed current run. -/
def charRunsAux (p : Char → Bool) : List Char → List Char → List (List Char)
  | [], acc => if acc.isEmpty then [] else [acc.reverse]
  | c :: t, acc =>
    if p c then charRunsAux p t (c :: acc)
    else if acc.isEmpty then charRunsAux p t []
    else acc.reverse :: charRunsAux p t []

/-- Maximal runs of characters satisfying p (re.findall of a character
class). -/
def charRuns (p : Char → Bool) (l : List Char) : List (List Char) :=
  charRunsAux p l []

/-- Python str.split() with no arguments: split on whitespace runs and
discard empty fields. -/
def pySplitWsL (l : List Char) : List (List Char) :=
  charRuns (fun c => !pyIsSpace c) l

/-- Python str.split() on strings. -/
def pySplitWs (s : String) : List String :=
  (pySplitWsL s.data).map String.mk

/-- Scanner for the non-overlapping occurrence count: at cooldown zero a
match adds one and starts a cooldown that skips the rest of the matched
needle, so later overlapping positions are not counted, exactly as
Python str.count scans. -/
def countOccAux (needle : List Char) : List Char → Nat → Nat
  | [], _ => 0
  | c :: t, 0 =>
    if needle.isPrefixOf (c :: t) then 1 + countOccAux needle t (needle.length - 1)
    else countOccAux needle t 0
  | _ :: t, k + 1 => countOccAux needle t k

/-- Python str.count: number of non-overlapping occurrences of the
needle, scanning left to right.  An empty needle yields length plus one,
as in Python. -/
def countOcc (needle : List Char) (hay : List Char) : Nat :=
  if needle.isEmpty then hay.length + 1 else countOccAux needle hay 0

/-! ## GroundingVerifier

Model of ChatService verify grounding (file
app/services/chat_service.py, method with leading underscore named
verify_grounding): given the generated answer and the candidate sources
used as context, decide which sources the answer actually used. -/

/-- A candidate source handed to the grounding verifier.  The Python value
is a dict; the verifier reads only its title key, via source.get, so only
that (possibly absent) field is modelled. -/
structure GSource where
  title : Option String
deriving DecidableEq

/-- Python source.get of the title with default empty string. -/
def sourceTitle (s : GSource) : String :=
  s.title.getD ""

/-- A source as returned by the verifier, carrying the two flags the code
writes into the dict. -/
structure GradedSource where
  src : GSource
  actually_used : Bool
  citation_found : Bool
deriving DecidableEq

/-- Result record of the grounding verifier. -/
structure GroundingResult where
  used_sources : List GradedSource
  unused_sources : List GradedSource
  grounding_score : ℚ
  hallucination_risk : String
  is_grounded : Bool

/-- The hedging-phrase list of the verifier. -/
def hallucination_phrases : List String :=
  ["i think", "i believe", "probably", "might be",
   "generally speaking", "in my opinion", "typically"]

/-- Python round(x, 2), modelled as nearest-integer rounding at two
decimals.  No claim proved here depends on the tie behaviour of the
rounding. -/
def round2 (q : ℚ) : ℚ :=
  ((round (100 * q) : ℤ) : ℚ) / 100

/-- Backtracking model of the regex fragment backslash-s-star, then the
escaped title, then a closing square bracket: either the title plus
bracket matches at this position, or one whitespace character is consumed
and matching continues. -/
def wsThenTitle (title : List Char) : List Char → Bool
  | [] => List.isPrefixOf (title ++ [']']) []
  | c :: t => List.isPrefixOf (title ++ [']']) (c :: t) || (pyIsSpace c && wsThenTitle title t)

/-- Match of the inline-citation pattern at one position: the literal text
left-bracket source, an optional colon, optional whitespace, the escaped
title, a right bracket. -/
def citedAt (title l : List Char) : Bool :=
  List.isPrefixOf "[source".data l &&
    ((match l.drop 7 with
      | ':' :: t => wsThenTitle title t
      | _ => false) ||
     wsThenTitle title (l.drop 7))

/-- re.search of the citation pattern over the whole lowered answer: a
match at any starting position. -/
def citedSearch (title : List Char) : List Char → Bool
  | [] => false
  | c :: t => citedAt title (c :: t) || citedSearch title t

/-- Per-source body of the verifier loop: computes the citation test, the
verbatim-mention test and the significant-word overlap, and grades the
source as used when any of the three succeeds. -/
def checkSource (response_lower : String) (source : GSource) : GradedSource :=
  let title_lower := pyLower (sourceTitle source)
  let is_cited := citedSearch title_lower.data response_lower.data
  let is_mentioned := strContains response_lower title_lower
  let title_words := (pySplitWs title_lower).filter (fun w => w.length > 3)
  let terms_found := (title_words.filter (fun w => strContains response_lower w)).length
  let term_overlap : ℚ :=
    if title_words.length = 0 then 0
    else (terms_found : ℚ) / (title_words.length : ℚ)
  { src := source
    actually_used := is_cited || is_mentioned || decide (term_overlap > 0.5)
    citation_found := is_cited }

/-- The grounding verifier: grades every source, computes the grounding
score (rounded to two decimals in the returned record), counts hedging
phrases present in the answer, and derives the risk label and the
grounded flag (the flag uses the unrounded score, as the code does). -/
def verify_grounding (response : String) (sources : List GSource) : GroundingResult :=
  let response_lower := pyLower response
  let graded := sources.map (checkSource response_lower)
  let used_sources := graded.filter (fun g => g.actually_used)
  let unused_sources := graded.filter (fun g => !g.actually_used)
  let total_sources := sources.length
  let grounding_score : ℚ :=
    if total_sources > 0 then (used_sources.length : ℚ) / (total_sources : ℚ) else 0
  let risk_count := (hallucination_phrases.filter (fun p => strContains response_lower p)).length
  { used_sources := used_sources
    unused_sources := unused_sources
    grounding_score := round2 grounding_score
    hallucination_risk :=
      if risk_count < 2 then "low" else if risk_count < 4 then "medium" else "high"
    is_grounded :=
      decide (grounding_score > 0.3) || strContains response_lower "don\x27t have information" }

/-- Total number of occurrences of hedging phrases in the answer, counted
with multiplicity.  This definition follows the words of claim C9 (the
spec counts occurrences); the code counts distinct phrases instead. -/
def specHedgingOccurrences (response : String) : Nat :=
  (hallucination_phrases.map (fun p => countOcc p.data (pyLower response).data)).sum

/-! ## HybridRetriever (retrieval_service.py)

The Supabase tables and the vector RPC are collaborators outside the
repository; they are modelled as an explicit environment value.  Python
exceptions raised by a backend call are modelled as Except.error. -/

/-- A row of the content_chunks table. -/
structure ChunkRow where
  id : String
  content_id : String
  chunk_text : String
  chunk_type : String
  chunk_index : Nat
deriving DecidableEq

/-- A row of the content table; nullable columns are Option. -/
structure ContentRow where
  id : String
  title : String
  description : Option String
  topic : Option String
  category : String
  content_type : String
  week : Option Int
deriving DecidableEq

/-- A row returned by the search_similar_chunks RPC, or built by the
fallback search.  The SQL function lives outside the repository; rows
carry the fields the Python code reads. -/
structure SemRow where
  chunk_id : String
  content_id : String
  chunk_text : String
  chunk_type : String
  chunk_index : Nat
  similarity : ℚ
  content_title : String
  content_category : String
  content_type : String
  content_topic : Option String
  content_week : Option Int
deriving DecidableEq

/-- Collaborator state for one retrieval call: the two tables, the
outcome of the vector RPC, and flags making a table select raise.  The
query embedding is not modelled separately: the RPC outcome it feeds is
given directly, and the fallback embedding path never raises. -/
structure DBEnv where
  chunks : List ChunkRow
  contents : List ContentRow
  rpcChunks : Except Unit (List SemRow)
  chunksTableFails : Bool
  contentTableFails : Bool

/-- Select over content_chunks. -/
def selectChunks (db : DBEnv) : Except Unit (List ChunkRow) :=
  if db.chunksTableFails then .error () else .ok db.chunks

/-- Select over content. -/
def selectContents (db : DBEnv) : Except Unit (List ContentRow) :=
  if db.contentTableFails then .error () else .ok db.contents

/-- Python pattern: if filter_value and row_value != filter_value, skip
the row.  None and the empty string are falsy and disable the filter;
the row value read through dict.get may be absent. -/
def optStrFilterMismatch (flt : Option String) (v : Option String) : Bool :=
  match flt with
  | none => false
  | some c => if c = "" then false else decide (v ≠ some c)

/-- Same truthiness pattern for the integer week filter: a zero filter
value is falsy and disables the filter. -/
def weekFilterMismatch (flt : Option Int) (v : Option Int) : Bool :=
  match flt with
  | none => false
  | some w => if w = 0 then false else decide (v ≠ some w)

/-- Truthy .eq filter of the query builder: applied only when the filter
value is a non-empty string. -/
def eqFilterMismatch (flt : Option String) (v : String) : Bool :=
  match flt with
  | none => false
  | some c => if c = "" then false else decide (v ≠ c)

/-- ilike with pattern percent-query-percent: case-insensitive
containment (wildcard metacharacters inside the query are not modelled). -/
def ilikeContains (v : String) (q : String) : Bool :=
  strContains (pyLower v) (pyLower q)

/-- ilike on a nullable column: NULL never matches. -/
def optIlike (v : Option String) (q : String) : Bool :=
  match v with
  | none => false
  | some s => ilikeContains s q

/-- Model of the private fallback search (leading underscore dropped): a
plain select over content_chunks limited to 100 rows, joined with the
content table (keyed by id, unique in the table), each surviving row
given the hard-coded similarity 0.6, then truncated to top_k.  The query
embedding and threshold parameters of the Python function are unused by
its body. -/
def fallback_search (db : DBEnv) (top_k : Nat)
    (category content_type : Option String) (week : Option Int) :
    Except Unit (List SemRow) :=
  match selectChunks db with
  | .error e => .error e
  | .ok rows0 =>
    let rows := rows0.take 100
    if rows.isEmpty then .ok []
    else
      match selectContents db with
      | .error e => .error e
      | .ok contents =>
        .ok ((rows.filterMap (fun c =>
          let meta := contents.find? (fun m => m.id = c.content_id)
          if optStrFilterMismatch category (meta.map (fun m => m.category)) then none
          else if optStrFilterMismatch content_type (meta.map (fun m => m.content_type)) then none
          else if weekFilterMismatch week (meta.bind (fun m => m.week)) then none
          else some
            { chunk_id := c.id
              content_id := c.content_id
              chunk_text := c.chunk_text
              chunk_type := c.chunk_type
              chunk_index := c.chunk_index
              similarity := 0.6
              content_title := (meta.map (fun m => m.title)).getD ""
              content_category := (meta.map (fun m => m.category)).getD ""
              content_type := (meta.map (fun m => m.content_type)).getD ""
              content_topic := meta.bind (fun m => m.topic)
              content_week := meta.bind (fun m => m.week) })).take top_k)

/-- Model of search_chunks: call the vector RPC; on an empty result or a
raised exception run the direct-table fallback.  An exception raised by
the fallback on the empty-result branch is caught by the except clause,
which runs the fallback once more (so its failure still propagates). -/
def search_chunks (db : DBEnv) (query : String) (top_k : Nat) (threshold : ℚ)
    (category content_type : Option String) (week : Option Int) :
    Except Unit (List SemRow) :=
  match db.rpcChunks with
  | .ok data =>
    if data.isEmpty then
      match fallback_search db top_k category content_type week with
      | .ok r => .ok r
      | .error _ => fallback_search db top_k category content_type week
    else .ok data
  | .error _ => fallback_search db top_k category content_type week

/-- Model of the content-metadata leg of the keyword search: rows whose
title, description or topic contain the query (ilike or_ filter), with
truthy category/content-type equality filters, limited to top_k, then
scored 0.4 for a title match, 0.3 for description, 0.3 for topic, capped
at 1, defaulting to 0.2 when no component matched. -/
def keyword_content_rows (db : DBEnv) (query : String) (top_k : Nat)
    (category content_type : Option String) :
    Except Unit (List (ContentRow × ℚ)) :=
  match selectContents db with
  | .error e => .error e
  | .ok contents =>
    let matched := (contents.filter (fun item =>
      (ilikeContains item.title query || optIlike item.description query
        || optIlike item.topic query)
      && !(eqFilterMismatch category item.category)
      && !(eqFilterMismatch content_type item.content_type))).take top_k
    let query_lower := pyLower query
    .ok (matched.map (fun item =>
      let score : ℚ :=
        (if strContains (pyLower item.title) query_lower then 0.4 else 0) +
        (if strContains (pyLower (item.description.getD "")) query_lower then 0.3 else 0) +
        (if strContains (pyLower (item.topic.getD "")) query_lower then 0.3 else 0)
      (item, if score > 0 then min score 1 else 0.2)))

/-- Python word characters (regex word class, ASCII): letters, digits,
underscore. -/
def isWordChar (c : Char) : Bool :=
  c.isAlpha || c.isDigit || c = '_'

/-- A row built by the chunk-text keyword search. -/
structure KwChunkItem where
  chunk_id : String
  content_id : String
  chunk_text : String
  chunk_type : String
  content_title : String
  content_category : String
  content_type : String
  keyword_score : ℚ
deriving DecidableEq

/-- Per-term body of the chunk-text search loop.  The whole round trip of
one term sits in a try/except that continues on failure, so a raising
select leaves the accumulator unchanged.  The seen set is only extended
by rows that pass the category filter, as in the code. -/
def searchChunkTextTerm (db : DBEnv) (top_k : Nat) (category : Option String)
    (term : String) (acc : List KwChunkItem × List String) :
    List KwChunkItem × List String :=
  match selectChunks db with
  | .error _ => acc
  | .ok allRows =>
    let rows := (allRows.filter (fun c => ilikeContains c.chunk_text term)).take top_k
    if rows.isEmpty then acc
    else
      match selectContents db with
      | .error _ => acc
      | .ok contents =>
        rows.foldl (fun acc2 c =>
          if acc2.2.contains c.id then acc2
          else
            let meta := contents.find? (fun m => m.id = c.content_id)
            if optStrFilterMismatch category (meta.map (fun m => m.category)) then acc2
            else
              let match_count := countOcc (pyLower term).data (pyLower c.chunk_text).data
              (acc2.1 ++
                [{ chunk_id := c.id
                   content_id := c.content_id
                   chunk_text := c.chunk_text
                   chunk_type := c.chunk_type
                   content_title := (meta.map (fun m => m.title)).getD ""
                   content_category := (meta.map (fun m => m.category)).getD ""
                   content_type := (meta.map (fun m => m.content_type)).getD ""
                   keyword_score := min (0.3 + (match_count : ℚ) * 0.1) 0.9 }],
               acc2.2 ++ [c.id])) acc

/-- Model of the private chunk-text search (leading underscore dropped):
up to five significant terms (word runs of length at least three), one
guarded round trip per term, final truncation to top_k.  This function
never raises: every backend failure is caught per term. -/
def search_chunk_text (db : DBEnv) (query : String) (top_k : Nat)
    (category : Option String) : List KwChunkItem :=
  let terms := ((charRuns isWordChar query.data).map String.mk).filter
    (fun t => t.length ≥ 3)
  if terms.isEmpty then []
  else
    ((terms.take 5).foldl (fun acc term =>
      searchChunkTextTerm db top_k category term acc) ([], [])).1.take top_k

/-- A row returned by the keyword search: a content-metadata row (its
Python dict has an id key) or a chunk row (its dict has a chunk_id key). -/
inductive KwRow where
  | contentRow (row : ContentRow) (score : ℚ)
  | chunkRow (item : KwChunkItem)
deriving DecidableEq

/-- Merge key of a keyword row: r.get of id, defaulting to chunk_id. -/
def KwRow.key : KwRow → String
  | .contentRow r _ => r.id
  | .chunkRow i => i.chunk_id

/-- Keyword score of a keyword row (always present on both shapes). -/
def KwRow.kw_score : KwRow → ℚ
  | .contentRow _ s => s
  | .chunkRow i => i.keyword_score

/-- Model of the private keyword search (leading underscore dropped):
content-metadata matches followed by chunk-text matches.  A failure of
the content-metadata select propagates; the chunk-text leg never raises. -/
def keyword_search (db : DBEnv) (query : String) (top_k : Nat)
    (category content_type : Option String) : Except Unit (List KwRow) :=
  match keyword_content_rows db query top_k category content_type with
  | .error e => .error e
  | .ok contentLeg =>
    let chunkLeg := search_chunk_text db query top_k category
    .ok (contentLeg.map (fun rs => KwRow.contentRow rs.1 rs.2) ++
      chunkLeg.map KwRow.chunkRow)

/-- A merged hybrid-search candidate: the value stored in the combined
dict.  The similarity field holds the combined score once the re-rank
step has written it (keyword-only rows are created without the key; the
field is initialised to 0 and overwritten before the list is returned). -/
structure MItem where
  chunk_id : String
  content_id : String
  chunk_text : String
  chunk_type : String
  chunk_index : Option Nat
  semantic_score : ℚ
  keyword_score : ℚ
  similarity : ℚ
  content_title : String
  content_category : String
  content_type : String
  content_topic : Option String
  content_week : Option Int
deriving DecidableEq

/-- Insertion-ordered map model of a Python dict: writing an existing key
keeps the key's position, a new key is appended. -/
def dictInsert (k : String) (v : MItem) :
    List (String × MItem) → List (String × MItem)
  | [] => [(k, v)]
  | (k0, v0) :: t => if k0 = k then (k0, v) :: t else (k0, v0) :: dictInsert k v t

/-- In-place update of one key of the dict, keeping its position. -/
def dictUpdate (k : String) (f : MItem → MItem) :
    List (String × MItem) → List (String × MItem)
  | [] => []
  | (k0, v0) :: t => if k0 = k then (k0, f v0) :: t else (k0, v0) :: dictUpdate k f t

/-- Key membership in the dict. -/
def dictMem (k : String) (d : List (String × MItem)) : Bool :=
  d.any (fun kv => kv.1 = k)

/-- The combined-dict value made from a semantic row: the dict-splat of
the row plus semantic_score from its similarity and keyword_score 0. -/
def semItem (r : SemRow) : MItem :=
  { chunk_id := r.chunk_id
    content_id := r.content_id
    chunk_text := r.chunk_text
    chunk_type := r.chunk_type
    chunk_index := some r.chunk_index
    semantic_score := r.similarity
    keyword_score := 0
    similarity := r.similarity
    content_title := r.content_title
    content_category := r.content_category
    content_type := r.content_type
    content_topic := r.content_topic
    content_week := r.content_week }

/-- The combined-dict value made from a keyword row that was not already
present, with the dict.get defaults of the code: content rows contribute
their title as chunk text and have no chunk_index or content_id key;
chunk rows contribute their own metadata. -/
def kwItem (r : KwRow) : MItem :=
  { chunk_id := r.key
    content_id := match r with
      | .contentRow _ _ => ""
      | .chunkRow i => i.content_id
    chunk_text := match r with
      | .contentRow c _ => c.title
      | .chunkRow i => i.chunk_text
    chunk_type := match r with
      | .contentRow _ _ => "text"
      | .chunkRow i => i.chunk_type
    chunk_index := none
    semantic_score := 0
    keyword_score := r.kw_score
    similarity := 0
    content_title := match r with
      | .contentRow c _ => c.title
      | .chunkRow _ => ""
    content_category := match r with
      | .contentRow c _ => c.category
      | .chunkRow _ => ""
    content_type := match r with
      | .contentRow c _ => c.content_type
      | .chunkRow i => i.content_type
    content_topic := match r with
      | .contentRow c _ => c.topic
      | .chunkRow _ => some ""
    content_week := match r with
      | .contentRow c _ => c.week
      | .chunkRow _ => none }

/-- Stable insertion for the descending sort: the element is placed
before the first element whose similarity does not exceed it, so earlier
elements stay ahead of equal later ones, exactly as Python's stable
list.sort with reverse=True. -/
def insertBySim (x : MItem) : List MItem → List MItem
  | [] => [x]
  | y :: ys =>
    if x.similarity ≥ y.similarity then x :: y :: ys else y :: insertBySim x ys

/-- Stable sort by combined score, descending. -/
def sortBySimDesc : List MItem → List MItem
  | [] => []
  | x :: xs => insertBySim x (sortBySimDesc xs)

/-- The merge step of hybrid_search before sorting: semantic candidates
are inserted first (keyed by chunk_id), then keyword rows either write
their keyword score onto an existing entry, keeping its position, or
append a new entry; finally every entry's combined score is written into
its similarity field. -/
def mergedItems (semantic_results : List SemRow) (keyword_results : List KwRow)
    (keyword_weight semantic_weight : ℚ) : List MItem :=
  let combined := semantic_results.foldl
    (fun d r => dictInsert r.chunk_id (semItem r) d) []
  let combined := keyword_results.foldl
    (fun d r =>
      if dictMem r.key d then
        dictUpdate r.key (fun it => { it with keyword_score := r.kw_score }) d
      else
        dictInsert r.key (kwItem r) d)
    combined
  combined.map (fun kv =>
    { kv.2 with similarity :=
        kv.2.semantic_score * semantic_weight + kv.2.keyword_score * keyword_weight })

/-- The candidate list hybrid_search builds before sorting: both legs are
run (a raised exception from either propagates) and merged. -/
def hybrid_candidates (db : DBEnv) (query : String) (top_k : Nat)
    (keyword_weight semantic_weight : ℚ)
    (category content_type : Option String) : Except Unit (List MItem) :=
  match search_chunks db query (top_k * 2) 0.4 category content_type none with
  | .error e => .error e
  | .ok semantic_results =>
    match keyword_search db query (top_k * 2) category content_type with
    | .error e => .error e
    | .ok keyword_results =>
      .ok (mergedItems semantic_results keyword_results keyword_weight semantic_weight)

/-- Model of hybrid_search: merge the two legs as hybrid_candidates, sort
by combined score descending (stable) and truncate to top_k.  An
exception from either leg propagates to the caller. -/
def hybrid_search (db : DBEnv) (query : String) (top_k : Nat)
    (keyword_weight semantic_weight : ℚ)
    (category content_type : Option String) : Except Unit (List MItem) :=
  match hybrid_candidates db query top_k keyword_weight semantic_weight
      category content_type with
  | .error e => .error e
  | .ok results => .ok ((sortBySimDesc results).take top_k)

/-- Projection discarding the error payload, used to state concrete
evaluations of fallible operations. -/
def exceptOk {α : Type} : Except Unit α → Option α
  | .ok a => some a
  | .error _ => none

/-! ## DocumentChunker (chunking_service.py) -/

/-- Scanner for Python re.split on the pattern newline backslash-s-star
newline, with leftmost matches and a greedy whitespace run.  The third
argument is none while accumulating a field, and some (buf, found) after
an unresolved newline: buf holds (reversed) the whitespace read since
the last newline, and found records whether a second newline has been
seen, in which case the separator greedily extends to the last newline
of the run and buf belongs to the next field. -/
def splitParasGo : List Char → List Char → Option (List Char × Bool) →
    List (List Char)
  | [], acc, none => [acc.reverse]
  | [], acc, some (buf, found) =>
    if found then [acc.reverse, buf.reverse]
    else [acc.reverse ++ '\n' :: buf.reverse]
  | c :: t, acc, none =>
    if c = '\n' then splitParasGo t acc (some ([], false))
    else splitParasGo t (c :: acc) none
  | c :: t, acc, some (buf, found) =>
    if c = '\n' then splitParasGo t acc (some ([], true))
    else if pyIsSpace c then splitParasGo t acc (some (c :: buf, found))
    else if found then acc.reverse :: splitParasGo t (c :: buf) none
    else splitParasGo t (c :: buf ++ '\n' :: acc) none

/-- Paragraph split of the text chunker. -/
def splitParas (s : String) : List String :=
  (splitParasGo s.data [] none).map String.mk

/-- A text chunk: the Chunk dataclass restricted to the fields the text
chunker writes (its metadata dict is always left empty on this path). -/
structure TChunk where
  text : String
  chunk_type : String
  start_position : Int
  end_position : Int
deriving DecidableEq

/-- Constructor arguments of ChunkingService. -/
structure ChunkCfg where
  chunk_size : Nat
  chunk_overlap : Nat
  min_chunk_size : Nat

/-- The service defaults: 512-character chunks, 50-character overlap,
100-character minimum. -/
def defaultCfg : ChunkCfg :=
  { chunk_size := 512, chunk_overlap := 50, min_chunk_size := 100 }

/-- Python slice s[-k:]: the last k characters for positive k, but the
whole string when k is zero (a Python slicing corner the code hits when
the service is configured with chunk_overlap zero). -/
def pyTakeRightSlice (s : String) (k : Nat) : String :=
  if k = 0 then s else String.mk (s.data.drop (s.data.length - k))

/-- Loop state of the paragraph accumulation in chunk_text. -/
structure ChunkLoopState where
  chunks : List TChunk
  current_chunk : String
  current_start : Int
  position : Int
deriving DecidableEq

/-- One iteration of the paragraph loop of chunk_text: strip the
paragraph, skip it when empty; emit the accumulated chunk when adding the
paragraph would overflow chunk_size, seeding the next accumulation with
the overlap slice; otherwise append the paragraph.  The position counter
advances by the paragraph length plus two, as in the code. -/
def chunkTextStep (cfg : ChunkCfg) (chunk_type : String)
    (st : ChunkLoopState) (para0 : String) : ChunkLoopState :=
  let para := pyStrip para0
  if para = "" then st
  else if st.current_chunk.length + para.length > cfg.chunk_size ∧
      st.current_chunk ≠ "" then
    let emitted : TChunk :=
      { text := pyStrip st.current_chunk
        chunk_type := chunk_type
        start_position := st.current_start
        end_position := st.position }
    let overlap_text :=
      if st.current_chunk.length > cfg.chunk_overlap then
        pyTakeRightSlice st.current_chunk cfg.chunk_overlap
      else ""
    { chunks := st.chunks ++ [emitted]
      current_chunk := overlap_text ++ " " ++ para
      current_start := st.position - (overlap_text.length : Int)
      position := st.position + (para.length : Int) + 2 }
  else if st.current_chunk ≠ "" then
    { st with
      current_chunk := st.current_chunk ++ "\n\n" ++ para
      position := st.position + (para.length : Int) + 2 }
  else
    { chunks := st.chunks
      current_chunk := para
      current_start := st.position
      position := st.position + (para.length : Int) + 2 }

/-- Model of chunk_text: short or empty input yields at most one chunk;
otherwise the stripped text is split into paragraphs and accumulated by
chunkTextStep, and a non-empty remainder is flushed as a final chunk. -/
def chunk_text (cfg : ChunkCfg) (text : String) (chunk_type : String) :
    List TChunk :=
  if text = "" ∨ (pyStrip text).length < cfg.min_chunk_size then
    if text ≠ "" ∧ pyStrip text ≠ "" then
      [{ text := pyStrip text
         chunk_type := chunk_type
         start_position := 0
         end_position := (text.length : Int) }]
    else []
  else
    let stext := pyStrip text
    let st := (splitParas stext).foldl (chunkTextStep cfg chunk_type)
      { chunks := [], current_chunk := "", current_start := 0, position := 0 }
    if pyStrip st.current_chunk ≠ "" then
      st.chunks ++
        [{ text := pyStrip st.current_chunk
           chunk_type := chunk_type
           start_position := st.current_start
           end_position := st.position }]
    else st.chunks

/-- A code chunk: the CodeChunk dataclass. -/
structure CodeChunk where
  text : String
  chunk_type : String
  start_position : Int
  end_position : Int
  language : String
  function_name : Option String
  class_name : Option String
  line_start : Option Int
  line_end : Option Int
deriving DecidableEq

/-- Split a character list on newlines, every field kept, including
empties. -/
def splitLinesL : List Char → List (List Char)
  | [] => [[]]
  | c :: t =>
    if c = '\n' then [] :: splitLinesL t
    else
      match splitLinesL t with
      | [] => [[c]]
      | f :: rest => (c :: f) :: rest

/-- Python code.split on newline: every field kept, including empties. -/
def splitLines (s : String) : List String :=
  (splitLinesL s.data).map String.mk

/-- Python newline.join. -/
def joinLines : List String → String
  | [] => ""
  | [x] => x
  | x :: y :: t => x ++ "\n" ++ joinLines (y :: t)

/-- Python lines slice joined with newlines. -/
def joinLineRange (lines : List String) (start_line end_line : Nat) : String :=
  joinLines ((lines.drop start_line).take (end_line - start_line))

/-- Model of the generic line-count chunker (leading underscore dropped):
50 lines per chunk with a 10-line overlap (step 40), empty-after-strip
slices skipped. -/
def chunk_generic_code (code : String) (language : String) : List CodeChunk :=
  let lines := splitLines code
  let chunk_lines := 50
  let step := chunk_lines - 10
  (List.range ((lines.length + step - 1) / step)).filterMap (fun j =>
    let i := j * step
    let e := min (i + chunk_lines) lines.length
    let chunk_code := joinLineRange lines i e
    if pyStrip chunk_code ≠ "" then
      some
        { text := chunk_code
          chunk_type := "code"
          start_position := (i : Int)
          end_position := (e : Int)
          language := language
          function_name := none
          class_name := none
          line_start := some ((i : Int) + 1)
          line_end := some (e : Int) }
    else none)

/-- A function or class declaration as reported by the ast module, a
collaborator outside this repository: its name, whether it is a class,
and the one-based first and last line numbers of the node (end_lineno is
always present on modern Python, which the code also assumes via its
hasattr default). The ast.walk order of the tree is the list order. -/
structure PyDecl where
  isClass : Bool
  name : String
  lineno : Nat
  end_lineno : Nat
deriving DecidableEq

/-- Outcome of ast.parse: a SyntaxError or the declarations found. -/
abbrev ParseResult := Except Unit (List PyDecl)

/-- Model of the Python code chunker (leading underscore dropped): a
SyntaxError falls back to the generic chunker; otherwise one chunk per
declaration, and when no declaration was found a non-blank file becomes
one single whole-file chunk. -/
def chunk_python_code (parse : ParseResult) (code : String) : List CodeChunk :=
  let lines := splitLines code
  match parse with
  | .error _ => chunk_generic_code code "python"
  | .ok decls =>
    let chunks := decls.map (fun d =>
      let start_line := d.lineno - 1
      let end_line := d.end_lineno
      { text := joinLineRange lines start_line end_line
        chunk_type := "code"
        start_position := (start_line : Int)
        end_position := (end_line : Int)
        language := "python"
        function_name := if d.isClass then none else some d.name
        class_name := if d.isClass then some d.name else none
        line_start := some ((start_line : Int) + 1)
        line_end := some (end_line : Int) })
    if chunks.isEmpty ∧ pyStrip code ≠ "" then
      [{ text := code
         chunk_type := "code"
         start_position := 0
         end_position := (lines.length : Int)
         language := "python"
         function_name := none
         class_name := none
         line_start := some 1
         line_end := some (lines.length : Int) }]
    else chunks

/-- Consume an exact literal at the head of the input. -/
def litTok (w : List Char) (l : List Char) : Option (List Char) :=
  if w.isPrefixOf l then some (l.drop w.length) else none

/-- Consume one or more whitespace characters.  The greedy run is safe
here because every continuation in the patterns below starts with a
non-whitespace token. -/
def ws1 (l : List Char) : Option (List Char) :=
  match l with
  | c :: t => if pyIsSpace c then some (t.dropWhile pyIsSpace) else none
  | [] => none

/-- Consume zero or more whitespace characters (same safety remark). -/
def ws0 (l : List Char) : List Char :=
  l.dropWhile pyIsSpace

/-- Consume one or more word characters, returning the captured word
(greedy, safe: every continuation starts with a non-word character). -/
def wordPlus (l : List Char) : Option (List Char × List Char) :=
  match l with
  | c :: t =>
    if isWordChar c then some (c :: t.takeWhile isWordChar, t.dropWhile isWordChar)
    else none
  | [] => none

/-- First JS pattern at one position: optional export, optional async,
the keyword function, then the captured name. -/
def jsPat1At (l : List Char) : Option String :=
  let cont2 := fun (l2 : List Char) => do
    let l3 ← litTok "function".data l2
    let l4 ← ws1 l3
    let (w, _) ← wordPlus l4
    pure (String.mk w)
  let cont1 := fun (l1 : List Char) =>
    (do
      let la ← litTok "async".data l1
      let lb ← ws1 la
      cont2 lb) <|> cont2 l1
  (do
    let la ← litTok "export".data l
    let lb ← ws1 la
    cont1 lb) <|> cont1 l

/-- Second JS pattern at one position: optional export, const, the
captured name, an equals sign, optional async, an opening parenthesis. -/
def jsPat2At (l : List Char) : Option String :=
  let cont1 := fun (l1 : List Char) => do
    let l2 ← litTok "const".data l1
    let l3 ← ws1 l2
    let (w, l4) ← wordPlus l3
    let l5 ← litTok "=".data (ws0 l4)
    let l6 := ws0 l5
    let afterAsync :=
      (do
        let la ← litTok "async".data l6
        let lb ← ws1 la
        litTok "(".data lb) <|> litTok "(".data l6
    let _ ← afterAsync
    pure (String.mk w)
  (do
    let la ← litTok "export".data l
    let lb ← ws1 la
    cont1 lb) <|> cont1 l

/-- Third JS pattern at one position: optional export, const, the
captured name, an equals sign, optional async, a word, then an arrow. -/
def jsPat3At (l : List Char) : Option String :=
  let cont1 := fun (l1 : List Char) => do
    let l2 ← litTok "const".data l1
    let l3 ← ws1 l2
    let (w, l4) ← wordPlus l3
    let l5 ← litTok "=".data (ws0 l4)
    let l6 := ws0 l5
    let afterAsync :=
      (do
        let la ← litTok "async".data l6
        let lb ← ws1 la
        pure lb) <|> pure l6
    let l7 ← afterAsync
    let (_, l8) ← wordPlus l7
    let _ ← litTok "=>".data (ws0 l8)
    pure (String.mk w)
  (do
    let la ← litTok "export".data l
    let lb ← ws1 la
    cont1 lb) <|> cont1 l

/-- re.search over a line: try the matcher at every start position. -/
def searchPos (f : List Char → Option String) : List Char → Option String
  | [] => f []
  | c :: t =>
    match f (c :: t) with
    | some r => some r
    | none => searchPos f t

/-- Per-line pattern loop of the JS chunker: the three patterns are tried
in order and the first match wins. -/
def jsLineMatch (line : String) : Option String :=
  match searchPos jsPat1At line.data with
  | some n => some n
  | none =>
    match searchPos jsPat2At line.data with
    | some n => some n
    | none => searchPos jsPat3At line.data

/-- Model of the JS and TypeScript chunker (leading underscore dropped):
function starts found per line by the regex heuristics; each chunk spans
from its declaration line to the next declaration line (or end of file);
with no match a non-blank file becomes one whole-file chunk. -/
def chunk_js_code (code : String) (language : String) : List CodeChunk :=
  let lines := splitLines code
  let func_starts := lines.enum.filterMap (fun p =>
    (jsLineMatch p.2).map (fun n => (p.1, n)))
  let ends := (func_starts.map (fun p => p.1)).tail ++ [lines.length]
  let chunks : List CodeChunk := (func_starts.zip ends).map (fun se =>
    let start_line := se.1.1
    let end_line := se.2
    { text := joinLineRange lines start_line end_line
      chunk_type := "code"
      start_position := (start_line : Int)
      end_position := (end_line : Int)
      language := language
      function_name := some se.1.2
      class_name := none
      line_start := some ((start_line : Int) + 1)
      line_end := some (end_line : Int) })
  if chunks.isEmpty ∧ pyStrip code ≠ "" then
    [{ text := code
       chunk_type := "code"
       start_position := 0
       end_position := (lines.length : Int)
       language := language
       function_name := none
       class_name := none
       line_start := some 1
       line_end := some (lines.length : Int) }]
  else chunks

/-- Model of chunk_code: dispatch on the language argument.  The Python
branch receives the ast.parse outcome as an explicit collaborator input;
the other branches are pure. -/
def chunk_code (parse : ParseResult) (code : String) (language : String) :
    List CodeChunk :=
  if language = "python" then chunk_python_code parse code
  else if language = "javascript" ∨ language = "typescript" then
    chunk_js_code code language
  else chunk_generic_code code language

/-! ## EmbeddingProvider (embedding_service.py)

The fallback path derives a deterministic vector from the text bytes via
repeated MD5 hashing.  MD5 (hashlib, a deterministic library function) is
modelled in full over byte lists, with 32-bit words as naturals reduced
modulo 2^32. -/

/-- Reduction modulo 2^32. -/
def u32 (n : Nat) : Nat := n % 4294967296

/-- Bitwise complement within 32 bits. -/
def u32not (n : Nat) : Nat := 4294967295 - n % 4294967296

/-- 32-bit left rotation (the argument is already reduced). -/
def rotl32 (x s : Nat) : Nat :=
  (x * 2 ^ s + x / 2 ^ (32 - s)) % 4294967296

/-- UTF-8 bytes of one character. -/
def utf8Bytes (c : Char) : List Nat :=
  let n := c.toNat
  if n < 128 then [n]
  else if n < 2048 then [192 + n / 64, 128 + n % 64]
  else if n < 65536 then [224 + n / 4096, 128 + (n / 64) % 64, 128 + n % 64]
  else [240 + n / 262144, 128 + (n / 4096) % 64, 128 + (n / 64) % 64, 128 + n % 64]

/-- Python str.encode with the utf-8 codec, as a byte list. -/
def utf8Encode (s : String) : List Nat :=
  (s.data.map utf8Bytes).join

/-- The 64 MD5 round constants. -/
def md5K : List Nat :=
  [0xd76aa478, 0xe8c7b756, 0x242070db, 0xc1bdceee,
   0xf57c0faf, 0x4787c62a, 0xa8304613, 0xfd469501,
   0x698098d8, 0x8b44f7af, 0xffff5bb1, 0x895cd7be,
   0x6b901122, 0xfd987193, 0xa679438e, 0x49b40821,
   0xf61e2562, 0xc040b340, 0x265e5a51, 0xe9b6c7aa,
   0xd62f105d, 0x02441453, 0xd8a1e681, 0xe7d3fbc8,
   0x21e1cde6, 0xc33707d6, 0xf4d50d87, 0x455a14ed,
   0xa9e3e905, 0xfcefa3f8, 0x676f02d9, 0x8d2a4c8a,
   0xfffa3942, 0x8771f681, 0x6d9d6122, 0xfde5380c,
   0xa4beea44, 0x4bdecfa9, 0xf6bb4b60, 0xbebfbc70,
   0x289b7ec6, 0xeaa127fa, 0xd4ef3085, 0x04881d05,
   0xd9d4d039, 0xe6db99e5, 0x1fa27cf8, 0xc4ac5665,
   0xf4292244, 0x432aff97, 0xab9423a7, 0xfc93a039,
   0x655b59c3, 0x8f0ccc92, 0xffeff47d, 0x85845dd1,
   0x6fa87e4f, 0xfe2ce6e0, 0xa3014314, 0x4e0811a1,
   0xf7537e82, 0xbd3af235, 0x2ad7d2bb, 0xeb86d391]

/-- The 64 MD5 per-round rotation amounts. -/
def md5S : List Nat :=
  [7, 12, 17, 22, 7, 12, 17, 22, 7, 12, 17, 22, 7, 12, 17, 22,
   5, 9, 14, 20, 5, 9, 14, 20, 5, 9, 14, 20, 5, 9, 14, 20,
   4, 11, 16, 23, 4, 11, 16, 23, 4, 11, 16, 23, 4, 11, 16, 23,
   6, 10, 15, 21, 6, 10, 15, 21, 6, 10, 15, 21, 6, 10, 15, 21]

/-- One MD5 round on the running state, reading message word g of the
current block. -/
def md5Round (M : List Nat) (st : Nat × Nat × Nat × Nat) (i : Nat) :
    Nat × Nat × Nat × Nat :=
  let a := st.1
  let b := st.2.1
  let c := st.2.2.1
  let d := st.2.2.2
  let fg : Nat × Nat :=
    if i < 16 then ((b &&& c) ||| (u32not b &&& d), i)
    else if i < 32 then ((d &&& b) ||| (u32not d &&& c), (5 * i + 1) % 16)
    else if i < 48 then (b ^^^ c ^^^ d, (3 * i + 5) % 16)
    else (c ^^^ (b ||| u32not d), (7 * i) % 16)
  let tmp := u32 (a + fg.1 + md5K.getD i 0 + M.getD fg.2 0)
  (d, u32 (b + rotl32 tmp (md5S.getD i 0)), b, c)

/-- Process one 64-byte block: decode 16 little-endian words, run the 64
rounds, add the result into the state. -/
def md5ProcessBlock (st : Nat × Nat × Nat × Nat) (block : List Nat) :
    Nat × Nat × Nat × Nat :=
  let M := (List.range 16).map (fun j =>
    block.getD (4 * j) 0 + block.getD (4 * j + 1) 0 * 256 +
    block.getD (4 * j + 2) 0 * 65536 + block.getD (4 * j + 3) 0 * 16777216)
  let r := (List.range 64).foldl (md5Round M) st
  (u32 (st.1 + r.1), u32 (st.2.1 + r.2.1),
   u32 (st.2.2.1 + r.2.2.1), u32 (st.2.2.2 + r.2.2.2))

/-- Split a byte list into 64-byte blocks. -/
def chunks64 (l : List Nat) : List (List Nat) :=
  match l with
  | [] => []
  | c :: t => (c :: t).take 64 :: chunks64 ((c :: t).drop 64)
termination_by l.length
decreasing_by
  simp only [List.length_drop, List.length_cons]
  omega

/-- MD5 padding: a 0x80 byte, zeros to 56 modulo 64, then the bit length
as eight little-endian bytes. -/
def md5Pad (msg : List Nat) : List Nat :=
  let k := (56 + 64 - (msg.length + 1) % 64) % 64
  msg ++ [128] ++ List.replicate k 0 ++
    (List.range 8).map (fun i => (8 * msg.length / 256 ^ i) % 256)

/-- Lowercase hex digit. -/
def hexDigit (n : Nat) : Char :=
  if n < 10 then Char.ofNat (48 + n) else Char.ofNat (87 + n)

/-- Two hex digits of a byte. -/
def byteToHex (b : Nat) : List Char :=
  [hexDigit (b / 16), hexDigit (b % 16)]

/-- Four little-endian bytes of a 32-bit word. -/
def le4 (n : Nat) : List Nat :=
  (List.range 4).map (fun i => (n / 256 ^ i) % 256)

/-- hashlib md5 hexdigest of a byte list: 32 lowercase hex characters. -/
def md5hex (msg : List Nat) : List Char :=
  let blocks := chunks64 (md5Pad msg)
  let st := blocks.foldl md5ProcessBlock
    (0x67452301, 0xefcdab89, 0x98badcfe, 0x10325476)
  (((le4 st.1 ++ le4 st.2.1 ++ le4 st.2.2.1 ++ le4 st.2.2.2).map byteToHex)).join

/-- Numeric value of one lowercase hex character. -/
def hexVal (c : Char) : Nat :=
  if c.toNat < 97 then c.toNat - 48 else c.toNat - 87

/-- Model of the private prepare text (leading underscore dropped):
strip, truncate above 8000 characters, and prepend the BGE retrieval
instruction for the search_query task. -/
def prepare_text (text : String) (task_type : String) : String :=
  let t := pyStrip text
  let t := if t.length > 8000 then String.mk (t.data.take 8000) else t
  if task_type = "search_query" then
    "Represent this sentence for searching relevant passages: " ++ t
  else t

/-- Model of the private hash-based fallback embedding (leading
underscore dropped): 48 MD5 digests of the UTF-8 text bytes concatenated
with the decimal loop index, each 32-character hex digest read as 16
byte pairs mapped affinely into the interval from minus one to one, the
whole truncated to 768 entries. -/
def generate_simple_embedding (text : String) : List ℚ :=
  let text_bytes := utf8Encode text
  let embedding := ((List.range 48).map (fun i =>
    let h := md5hex (text_bytes ++ utf8Encode (Nat.repr i))
    (List.range 16).map (fun j =>
      let pair := hexVal (h.getD (2 * j) '0') * 16 + hexVal (h.getD (2 * j + 1) '0')
      (pair : ℚ) / 127.5 - 1))).join
  embedding.take 768

/-- The fallback path of embed_text: the text prepared by prepare_text is
what the code hands to the hash embedding. -/
def fallbackEmbedding (text : String) (task_type : String) : List ℚ :=
  generate_simple_embedding (prepare_text text task_type)

/-! ## Claim-side definitions and concrete inputs -/

/-- The last k characters of a character list (the mathematical reading
of the spec's overlap clause, with no Python slicing corner). -/
def lastCharsL (l : List Char) (k : Nat) : List Char :=
  l.drop (l.length - k)

/-- A character list ends in a non-whitespace character (or is empty). -/
def endsNonWs (l : List Char) : Prop :=
  ∀ c ∈ l.reverse.head?, pyIsSpace c = false

/-- The adjacency property the amended claim C5 asserts of consecutive
chunks: when the emitted chunk is longer than the overlap, its last
overlap-many characters, less any leading whitespace of that slice, open
the next chunk. -/
def overlapAdj (o : Nat) (a b : TChunk) : Prop :=
  a.text.length > o →
    (lastCharsL a.text.data o).dropWhile pyIsSpace <+: b.text.data

/-- The ordering claim C4 asserts of the returned list: adjacent results
are strictly descending in combined score, or tie-broken by higher raw
semantic score and then by lower chunk index.  This definition follows
the words of the claim. -/
def specTieBreakOrdered : List MItem → Bool
  | [] => true
  | [_] => true
  | a :: b :: t =>
    (decide (b.similarity < a.similarity) ||
      (decide (a.similarity = b.similarity) &&
        (decide (b.semantic_score < a.semantic_score) ||
          (decide (a.semantic_score = b.semantic_score) &&
            decide (a.chunk_index.getD 0 ≤ b.chunk_index.getD 0))))) &&
    specTieBreakOrdered (b :: t)

/-- Risk label for a count, with the thresholds of the code and the spec:
below two low, below four medium, otherwise high. -/
def riskLabelOfCount (n : Nat) : String :=
  if n < 2 then "low" else if n < 4 then "medium" else "high"

/-- Concrete environment for claim C2: the vector RPC raises, both table
selects succeed, one chunk exists, and the query will match nothing on
the keyword leg. -/
def c2db : DBEnv :=
  { chunks := [{ id := "ch1", content_id := "co1",
                 chunk_text := "tensor flow notes",
                 chunk_type := "text", chunk_index := 0 }]
    contents := [{ id := "co1", title := "Notes", description := none,
                   topic := none, category := "theory", content_type := "pdf",
                   week := none }]
    rpcChunks := .error ()
    chunksTableFails := false
    contentTableFails := false }

/-- Concrete environment for claim C3: two content rows match the query
alpha, in table order first the description match (score 0.3), then the
title match (score 0.4); the semantic leg is empty. -/
def c3db : DBEnv :=
  { chunks := []
    contents :=
      [{ id := "b", title := "Basics", description := some "intro to alpha topics",
         topic := none, category := "theory", content_type := "pdf", week := none },
       { id := "a", title := "alpha guide", description := none, topic := none,
         category := "theory", content_type := "pdf", week := none }]
    rpcChunks := .ok []
    chunksTableFails := false
    contentTableFails := false }

/-- The list hybrid_search returns on c3db with keyword weight 1 and
semantic weight 0. -/
def c3list : List MItem :=
  match hybrid_search c3db "alpha" 10 1 0 none none with
  | .ok l => l
  | .error _ => []

/-- A throwaway item for positional access in closed statements. -/
def mDummy : MItem :=
  { chunk_id := "", content_id := "", chunk_text := "", chunk_type := ""
    chunk_index := none, semantic_score := 0, keyword_score := 0, similarity := 0
    content_title := "", content_category := "", content_type := ""
    content_topic := none, content_week := none }

/-- Concrete environment for claim C4: the RPC returns two rows with
equal similarity one half, the first with chunk index five, the second
with chunk index two; the keyword leg matches nothing. -/
def c4db : DBEnv :=
  { chunks := []
    contents := []
    rpcChunks := .ok
      [{ chunk_id := "a", content_id := "co", chunk_text := "t",
         chunk_type := "text", chunk_index := 5, similarity := 0.5,
         content_title := "T", content_category := "", content_type := "",
         content_topic := none, content_week := none },
       { chunk_id := "b", content_id := "co", chunk_text := "t",
         chunk_type := "text", chunk_index := 2, similarity := 0.5,
         content_title := "T", content_category := "", content_type := "",
         content_topic := none, content_week := none }]
    chunksTableFails := false
    contentTableFails := false }

/-- The list hybrid_search returns on c4db with the default weights. -/
def c4list : List MItem :=
  match hybrid_search c4db "zzz" 10 0.3 0.7 none none with
  | .ok l => l
  | .error _ => []

/-- First paragraph of the claim C5 counterexample text: 411 letters, a
space, then 49 letters, so that the 50-character overlap slice of the
first emitted chunk starts with the space. -/
def c5para1 : String :=
  String.mk (List.replicate 411 'a') ++ " " ++ String.mk (List.replicate 49 'b')

/-- Second paragraph of the claim C5 counterexample text. -/
def c5para2 : String :=
  String.mk (List.replicate 100 'c')

/-- The claim C5 counterexample text: two paragraphs whose combined
length overflows the default 512-character chunk size. -/
def c5text : String :=
  c5para1 ++ "\n\n" ++ c5para2

/-- Sixty assignment lines: Python code that parses successfully and
contains no function or class declaration, so ast.walk reports no
declarations (parse outcome ok with the empty list). -/
def c6code : String :=
  String.join (List.replicate 60 "x = 1\n")

/-! ## Theorems -/

set_option maxRecDepth 4000

theorem checkSource_used_of_contains (response_lower : String) (src : GSource)
    (hc : strContains response_lower (pyLower (sourceTitle src)) = true) :
    (checkSource response_lower src).actually_used = true := by
  simp only [checkSource, hc, Bool.or_true, Bool.true_or]

theorem mem_used_of_contains (response : String) (sources : List GSource)
    (src : GSource) (hmem : src ∈ sources)
    (hc : strContains (pyLower response) (pyLower (sourceTitle src)) = true) :
    ∃ g ∈ (verify_grounding response sources).used_sources,
      g.src = src ∧ g.actually_used = true := by
  refine ⟨checkSource (pyLower response) src, ?_, rfl,
    checkSource_used_of_contains _ _ hc⟩
  have hmem2 : checkSource (pyLower response) src ∈
      (sources.map (checkSource (pyLower response))) :=
    List.mem_map.mpr ⟨src, hmem, rfl⟩
  exact List.mem_filter.mpr ⟨hmem2, checkSource_used_of_contains _ _ hc⟩

theorem round2_nonneg (q : ℚ) (h : 0 ≤ q) : 0 ≤ round2 q := by
  unfold round2
  have h0 : ((0 : ℤ) : ℚ) ≤ 100 * q + 1 / 2 := by
    push_cast
    linarith
  have h1 : (0 : ℤ) ≤ round (100 * q) := by
    rw [round_eq]
    exact Int.le_floor.mpr h0
  have h1q : (0 : ℚ) ≤ ((round (100 * q) : ℤ) : ℚ) := by exact_mod_cast h1
  positivity

theorem round2_le_one (q : ℚ) (h : q ≤ 1) : round2 q ≤ 1 := by
  unfold round2
  have h1 : round (100 * q) ≤ 100 := by
    rw [round_eq]
    have hle : 100 * q + 1 / 2 ≤ 100 + 1 / 2 := by linarith
    have h2 := Int.floor_le_floor hle
    have h3 : (⌊(100 + 1 / 2 : ℚ)⌋ : ℤ) = 100 := by norm_num
    omega
  have h1q : ((round (100 * q) : ℤ) : ℚ) ≤ 100 := by exact_mod_cast h1
  linarith

/-- C1. The fallback embedding path, the composition of prepare_text and
the hash embedding, is a pure function of the input text and the task
type: two calls on identical text and identical mode return identical
vectors. -/
theorem c1_fallback_deterministic (t1 t2 m1 m2 : String)
    (ht : t1 = t2) (hm : m1 = m2) :
    fallbackEmbedding t1 m1 = fallbackEmbedding t2 m2 := by
  subst ht; subst hm; rfl

theorem c1_fallback_deterministic_witness :
    fallbackEmbedding "hello" "search_query" = fallbackEmbedding "hello" "search_query" :=
  c1_fallback_deterministic "hello" "hello" "search_query" "search_query" rfl rfl

/-- C6 counterexample. Sixty assignment lines parse successfully with no
declaration (ast reports the empty declaration list), yet chunk_code
returns one single whole-file chunk rather than the generic 50-line
chunking with 10-line overlap, which would give two chunks here. -/
theorem c6_counterexample :
    (chunk_code (Except.ok []) c6code "python").length = 1 ∧
    (chunk_generic_code c6code "python").length = 2 ∧
    chunk_code (Except.ok []) c6code "python" ≠ chunk_generic_code c6code "python" := by
  refine ⟨by with_unfolding_all decide, by with_unfolding_all decide,
    by with_unfolding_all decide⟩

/-- C6 amended. chunk_code never raises and degrades as follows: a
SyntaxError from the Python parse falls back to the generic line-count
chunking; a successful parse with no declarations yields one single
whole-file chunk for a non-blank file (not the generic chunking); any
language other than python, javascript and typescript goes straight to
the generic chunker. -/
theorem c6_amended (code language : String) (parse : ParseResult) :
    (parse = .error () → chunk_code parse code "python" = chunk_generic_code code "python") ∧
    (parse = .ok [] → pyStrip code ≠ "" → (chunk_code parse code "python").length = 1) ∧
    (language ≠ "python" → language ≠ "javascript" → language ≠ "typescript" →
      chunk_code parse code language = chunk_generic_code code language) := by
  refine ⟨?_, ?_, ?_⟩
  · intro h
    subst h
    simp [chunk_code, chunk_python_code]
  · intro h hne
    subst h
    simp [chunk_code, chunk_python_code, hne]
  · intro h1 h2 h3
    unfold chunk_code
    rw [if_neg h1, if_neg (not_or.mpr ⟨h2, h3⟩)]

theorem c6_amended_witness :
    chunk_code (Except.error ()) "x = 1" "python" = chunk_generic_code "x = 1" "python" ∧
    (chunk_code (Except.ok []) c6code "python").length = 1 ∧
    chunk_code (Except.ok []) "y = 2" "go" = chunk_generic_code "y = 2" "go" :=
  ⟨(c6_amended "x = 1" "go" (Except.error ())).1 rfl,
   (c6_amended c6code "go" (Except.ok [])).2.1 rfl (by with_unfolding_all decide),
   (c6_amended "y = 2" "go" (Except.ok [])).2.2 (by decide) (by decide) (by decide)⟩

/-- C7. A source whose exact title appears verbatim, case-insensitively,
in the answer text is always placed in used_sources by the grounding
verifier, flagged as actually used. -/
theorem c7_title_mentioned_used (response : String) (sources : List GSource)
    (src : GSource) (hmem : src ∈ sources)
    (hc : strContains (pyLower response) (pyLower (sourceTitle src)) = true) :
    ∃ g ∈ (verify_grounding response sources).used_sources,
      g.src = src ∧ g.actually_used = true :=
  mem_used_of_contains response sources src hmem hc

theorem c7_title_mentioned_used_witness :
    ∃ g ∈ (verify_grounding "see Intro To Lean today"
        [{ title := some "intro to lean" }]).used_sources,
      g.src = { title := some "intro to lean" } ∧ g.actually_used = true :=
  c7_title_mentioned_used "see Intro To Lean today" [{ title := some "intro to lean" }]
    { title := some "intro to lean" } (by decide) (by decide)

theorem verify_grounding_score_eq (response : String) (sources : List GSource) :
    (verify_grounding response sources).grounding_score =
      round2 (if sources.length > 0 then
        (((sources.map (checkSource (pyLower response))).filter
          (fun g => g.actually_used)).length : ℚ) / (sources.length : ℚ)
      else 0) := rfl

/-- C8. The grounding score returned by the verifier always lies between
zero and one, and it is zero whenever the candidate source list is
empty. -/
theorem c8_grounding_score_range (response : String) (sources : List GSource) :
    0 ≤ (verify_grounding response sources).grounding_score ∧
    (verify_grounding response sources).grounding_score ≤ 1 ∧
    (sources = [] → (verify_grounding response sources).grounding_score = 0) := by
  rw [verify_grounding_score_eq]
  refine ⟨round2_nonneg _ ?_, round2_le_one _ ?_, ?_⟩
  · split
    · positivity
    · exact le_refl 0
  · split
    · next h =>
      rw [div_le_one (by exact_mod_cast h)]
      have h2 : ((sources.map (checkSource (pyLower response))).filter
          (fun g => g.actually_used)).length ≤ sources.length := by
        calc ((sources.map (checkSource (pyLower response))).filter
              (fun g => g.actually_used)).length
            ≤ (sources.map (checkSource (pyLower response))).length :=
              List.length_filter_le _ _
          _ = sources.length := List.length_map _ _
      exact_mod_cast h2
    · norm_num
  · intro h
    subst h
    norm_num [round2]

/-- C9 counterexample. An answer repeating the single hedging phrase
probably three times has three hedging occurrences, which the claim maps
to medium (not low), yet the verifier reports low because it counts
distinct phrases present rather than occurrences. -/
theorem c9_counterexample :
    (verify_grounding "probably probably probably" []).hallucination_risk = "low" ∧
    specHedgingOccurrences "probably probably probably" = 3 ∧
    riskLabelOfCount 3 = "medium" ∧
    ("low" : String) ≠ "medium" := by
  refine ⟨by with_unfolding_all decide, by with_unfolding_all decide,
    by decide, by decide⟩

/-- C9 amended. The hallucination risk label is determined by the number
of distinct hedging phrases present in the answer, each counted once
regardless of how often it occurs: fewer than two distinct phrases gives
low, fewer than four medium, otherwise high. -/
theorem c9_amended (response : String) (sources : List GSource) :
    (verify_grounding response sources).hallucination_risk =
      riskLabelOfCount ((hallucination_phrases.filter
        (fun p => strContains (pyLower response) p)).length) := rfl

/-- C10. A candidate source whose effective title is the empty string is
always graded as used and placed in used_sources with actually_used set,
whatever the answer says: the empty string is a substring of every
answer, so the verbatim-mention test always fires. -/
theorem c10_empty_title_used (response : String) (sources : List GSource)
    (src : GSource) (hmem : src ∈ sources) (ht : sourceTitle src = "") :
    ∃ g ∈ (verify_grounding response sources).used_sources,
      g.src = src ∧ g.actually_used = true := by
  apply mem_used_of_contains response sources src hmem
  rw [ht]
  exact decide_eq_true List.nil_infix

theorem c10_empty_title_used_witness :
    ∃ g ∈ (verify_grounding "xyz" [{ title := some "" }]).used_sources,
      g.src = { title := some "" } ∧ g.actually_used = true :=
  c10_empty_title_used "xyz" [{ title := some "" }] { title := some "" }
    (by decide) rfl

/-- C2 counterexample. With the vector RPC raising and the tables
reachable, hybrid_search returns a candidate produced by the degraded
direct-table fallback, whose semantic score is the hard-coded default
0.6; its semantic contribution, 0.6 times the semantic weight 0.7, is
0.42, not 0, so the degraded result is not derived from keyword matches
alone. -/
theorem c2_counterexample :
    c2db.rpcChunks = Except.error () ∧
    (exceptOk (hybrid_search c2db "zzz" 10 0.3 0.7 none none)).map
      (fun l => l.map (fun x => x.semantic_score * 0.7)) = some [0.42] ∧
    (0.42 : ℚ) ≠ 0 := by
  refine ⟨rfl, by with_unfolding_all decide, by with_unfolding_all decide⟩

/-- C3 counterexample. On a corpus with two keyword matches scored 0.3
(table order first) and 0.4, the keyword search alone returns them in
table order, scores 0.3 then 0.4, while hybrid_search with keyword
weight 1 and semantic weight 0 re-sorts them by score: the two top-k
lists differ in order. -/
theorem c3_counterexample :
    (exceptOk (hybrid_search c3db "alpha" 10 1 0 none none)).map
      (fun l => l.map (fun x => x.chunk_id)) = some ["a", "b"] ∧
    (exceptOk (keyword_search c3db "alpha" 10 none none)).map
      (fun l => l.map KwRow.key) = some ["b", "a"] ∧
    (["a", "b"] : List String) ≠ ["b", "a"] := by
  refine ⟨by with_unfolding_all decide, by with_unfolding_all decide, by decide⟩

/-- C4 counterexample. Two candidates tie at combined score 0.35 with
equal raw semantic scores; the claimed tie-break would place the one
with the lower chunk index (2) first, but the code's stable sort keeps
backend order and returns the index-5 candidate first, so the output
violates the claimed ordering. -/
theorem c4_counterexample :
    exceptOk (hybrid_search c4db "zzz" 10 0.3 0.7 none none) = some c4list ∧
    c4list.map (fun x => (x.chunk_id, x.chunk_index)) =
      [("a", some 5), ("b", some 2)] ∧
    c4list.map (fun x => x.similarity) = [0.35, 0.35] ∧
    c4list.map (fun x => x.semantic_score) = [0.5, 0.5] ∧
    specTieBreakOrdered c4list = false := by
  refine ⟨by with_unfolding_all decide, by with_unfolding_all decide,
    by with_unfolding_all decide, by with_unfolding_all decide,
    by with_unfolding_all decide⟩

theorem exceptOk_some {α : Type} (e : Except Unit α) (a : α)
    (h : exceptOk e = some a) : e = .ok a := by
  cases e with
  | ok v =>
    simp only [exceptOk, Option.some.injEq] at h
    rw [h]
  | error v => simp [exceptOk] at h

theorem selectChunks_ok (db : DBEnv) (h : db.chunksTableFails = false) :
    selectChunks db = .ok db.chunks := by
  simp [selectChunks, h]

theorem selectContents_ok (db : DBEnv) (h : db.contentTableFails = false) :
    selectContents db = .ok db.contents := by
  simp [selectContents, h]

theorem fallback_search_ok (db : DBEnv) (top_k : Nat)
    (category content_type : Option String) (week : Option Int)
    (hc : db.chunksTableFails = false) (hk : db.contentTableFails = false) :
    ∃ rows, fallback_search db top_k category content_type week = .ok rows ∧
      ∀ r ∈ rows, r.similarity = 0.6 := by
  unfold fallback_search
  rw [selectChunks_ok db hc, selectContents_ok db hk]
  dsimp only
  by_cases hemp : (db.chunks.take 100).isEmpty
  · exact ⟨[], by simp [hemp], by simp⟩
  · refine ⟨_, by rw [if_neg hemp], ?_⟩
    intro r hr
    obtain ⟨c, _, hsome⟩ := List.mem_filterMap.mp (List.take_subset _ _ hr)
    split at hsome
    · exact absurd hsome (by simp)
    · split at hsome
      · exact absurd hsome (by simp)
      · split at hsome
        · exact absurd hsome (by simp)
        · injection hsome with h2
          rw [← h2]

theorem search_chunks_rpc_error (db : DBEnv) (query : String) (top_k : Nat)
    (threshold : ℚ) (category content_type : Option String) (week : Option Int)
    (hr : db.rpcChunks = .error ()) :
    search_chunks db query top_k threshold category content_type week =
      fallback_search db top_k category content_type week := by
  unfold search_chunks
  rw [hr]

theorem keyword_search_ok (db : DBEnv) (query : String) (top_k : Nat)
    (category content_type : Option String) (hk : db.contentTableFails = false) :
    ∃ rows, keyword_search db query top_k category content_type = .ok rows := by
  unfold keyword_search keyword_content_rows
  rw [selectContents_ok db hk]
  exact ⟨_, rfl⟩

theorem mem_dictInsert_values {P : MItem → Prop} (k : String) (v : MItem)
    (d : List (String × MItem)) :
    (∀ kv ∈ d, P kv.2) → P v → ∀ kv ∈ dictInsert k v d, P kv.2 := by
  induction d with
  | nil =>
    intro _ hv kv hkv
    simp only [dictInsert, List.mem_singleton] at hkv
    rw [hkv]
    exact hv
  | cons p t ih =>
    intro hd hv kv hkv
    obtain ⟨k0, v0⟩ := p
    rw [dictInsert] at hkv
    split at hkv
    · rcases List.mem_cons.mp hkv with h | h
      · rw [h]; exact hv
      · exact hd _ (List.mem_cons_of_mem _ h)
    · rcases List.mem_cons.mp hkv with h | h
      · rw [h]; exact hd _ (List.mem_cons_self _ _)
      · exact ih (fun kv2 h2 => hd kv2 (List.mem_cons_of_mem _ h2)) hv _ h

theorem mem_dictUpdate_values {P : MItem → Prop} (k : String) (f : MItem → MItem)
    (d : List (String × MItem)) :
    (∀ kv ∈ d, P kv.2) → (∀ x, P x → P (f x)) →
    ∀ kv ∈ dictUpdate k f d, P kv.2 := by
  induction d with
  | nil => intro _ _ kv hkv; simp [dictUpdate] at hkv
  | cons p t ih =>
    intro hd hf kv hkv
    obtain ⟨k0, v0⟩ := p
    rw [dictUpdate] at hkv
    split at hkv
    · rcases List.mem_cons.mp hkv with h | h
      · rw [h]; exact hf _ (hd _ (List.mem_cons_self _ _))
      · exact hd _ (List.mem_cons_of_mem _ h)
    · rcases List.mem_cons.mp hkv with h | h
      · rw [h]; exact hd _ (List.mem_cons_self _ _)
      · exact ih (fun kv2 h2 => hd kv2 (List.mem_cons_of_mem _ h2)) hf _ h

theorem semFold_values {P : MItem → Prop} (rows : List SemRow) :
    ∀ d : List (String × MItem), (∀ r ∈ rows, P (semItem r)) →
    (∀ kv ∈ d, P kv.2) →
    ∀ kv ∈ rows.foldl (fun d r => dictInsert r.chunk_id (semItem r) d) d,
      P kv.2 := by
  induction rows with
  | nil => intro d _ hd kv hkv; exact hd kv hkv
  | cons r t ih =>
    intro d hrows hd kv hkv
    rw [List.foldl_cons] at hkv
    exact ih _ (fun r2 h2 => hrows r2 (List.mem_cons_of_mem _ h2))
      (mem_dictInsert_values _ _ _ hd (hrows r (List.mem_cons_self _ _))) kv hkv

theorem kwFold_values {P : MItem → Prop} (rows : List KwRow) :
    ∀ d : List (String × MItem), (∀ r ∈ rows, P (kwItem r)) →
    (∀ (x : MItem) (s : ℚ), P x → P { x with keyword_score := s }) →
    (∀ kv ∈ d, P kv.2) →
    ∀ kv ∈ rows.foldl (fun d r =>
      if dictMem r.key d then
        dictUpdate r.key (fun it => { it with keyword_score := r.kw_score }) d
      else dictInsert r.key (kwItem r) d) d, P kv.2 := by
  induction rows with
  | nil => intro d _ _ hd kv hkv; exact hd kv hkv
  | cons r t ih =>
    intro d hrows hupd hd kv hkv
    rw [List.foldl_cons] at hkv
    refine ih _ (fun r2 h2 => hrows r2 (List.mem_cons_of_mem _ h2)) hupd ?_ kv hkv
    intro kv2 hkv2
    by_cases hm : dictMem r.key d
    · rw [if_pos hm] at hkv2
      exact mem_dictUpdate_values _ _ _ hd (fun x hx => hupd x _ hx) kv2 hkv2
    · rw [if_neg hm] at hkv2
      exact mem_dictInsert_values _ _ _ hd (hrows r (List.mem_cons_self _ _)) kv2 hkv2

theorem mergedItems_shape (sem : List SemRow) (kwr : List KwRow) (kww sw : ℚ) :
    ∀ x ∈ mergedItems sem kwr kww sw,
      x.similarity = x.semantic_score * sw + x.keyword_score * kww := by
  intro x hx
  obtain ⟨kv, _, rfl⟩ := List.mem_map.mp hx
  rfl

theorem mergedItems_sem_score (sem : List SemRow) (kwr : List KwRow) (kww sw : ℚ)
    (hsem : ∀ r ∈ sem, r.similarity = 0.6) :
    ∀ x ∈ mergedItems sem kwr kww sw,
      x.semantic_score = 0 ∨ x.semantic_score = 0.6 := by
  intro x hx
  obtain ⟨kv, hkv, rfl⟩ := List.mem_map.mp hx
  have hval : kv.2.semantic_score = 0 ∨ kv.2.semantic_score = 0.6 := by
    refine kwFold_values
      (P := fun y => y.semantic_score = 0 ∨ y.semantic_score = 0.6) kwr _ ?_ ?_ ?_ kv hkv
    · intro r _
      left
      rfl
    · intro x2 s hx2
      exact hx2
    · refine semFold_values
        (P := fun y => y.semantic_score = 0 ∨ y.semantic_score = 0.6) sem [] ?_ ?_
      · intro r hr
        right
        exact hsem r hr
      · intro kv2 h2
        simp at h2
  exact hval

theorem mem_insertBySim (x a : MItem) (l : List MItem) :
    a ∈ insertBySim x l ↔ a = x ∨ a ∈ l := by
  induction l with
  | nil => simp [insertBySim]
  | cons y ys ih =>
    rw [insertBySim]
    split
    · simp [List.mem_cons]
    · simp only [List.mem_cons, ih]
      tauto

theorem pairwise_insertBySim (x : MItem) (l : List MItem)
    (hl : l.Pairwise (fun a b => b.similarity ≤ a.similarity)) :
    (insertBySim x l).Pairwise (fun a b => b.similarity ≤ a.similarity) := by
  induction l with
  | nil => simp [insertBySim]
  | cons y ys ih =>
    rw [insertBySim]
    split
    · next h =>
      refine List.Pairwise.cons ?_ hl
      intro b hb
      rcases List.mem_cons.mp hb with rfl | hb2
      · exact h
      · exact le_trans (List.rel_of_pairwise_cons hl hb2) h
    · next h =>
      have hxy : x.similarity ≤ y.similarity := le_of_not_le h
      refine List.Pairwise.cons ?_ (ih (List.Pairwise.of_cons hl))
      intro b hb
      rcases (mem_insertBySim x b ys).mp hb with rfl | hb2
      · exact hxy
      · exact List.rel_of_pairwise_cons hl hb2

theorem mem_sortBySimDesc (a : MItem) (l : List MItem) :
    a ∈ sortBySimDesc l ↔ a ∈ l := by
  induction l with
  | nil => simp [sortBySimDesc]
  | cons x xs ih =>
    rw [sortBySimDesc, mem_insertBySim]
    simp [ih, List.mem_cons]

theorem sorted_sortBySimDesc (l : List MItem) :
    (sortBySimDesc l).Pairwise (fun a b => b.similarity ≤ a.similarity) := by
  induction l with
  | nil => simp [sortBySimDesc]
  | cons x xs ih => exact pairwise_insertBySim x _ ih

theorem hybrid_candidates_inv (db : DBEnv) (query : String) (top_k : Nat)
    (kww sw : ℚ) (category content_type : Option String) (results : List MItem)
    (h : hybrid_candidates db query top_k kww sw category content_type = .ok results) :
    ∃ sem kwr, results = mergedItems sem kwr kww sw := by
  unfold hybrid_candidates at h
  cases hs : search_chunks db query (top_k * 2) 0.4 category content_type none with
  | error e => rw [hs] at h; exact absurd h (by simp)
  | ok sem =>
    rw [hs] at h
    cases hk : keyword_search db query (top_k * 2) category content_type with
    | error e => rw [hk] at h; exact absurd h (by simp)
    | ok kwr =>
      rw [hk] at h
      injection h with h2
      exact ⟨sem, kwr, h2.symm⟩

theorem hybrid_search_inv (db : DBEnv) (query : String) (top_k : Nat)
    (kww sw : ℚ) (category content_type : Option String) (l : List MItem)
    (h : hybrid_search db query top_k kww sw category content_type = .ok l) :
    ∃ sem kwr,
      l = (sortBySimDesc (mergedItems sem kwr kww sw)).take top_k := by
  unfold hybrid_search at h
  cases hcand : hybrid_candidates db query top_k kww sw category content_type with
  | error e => rw [hcand] at h; exact absurd h (by simp)
  | ok results =>
    rw [hcand] at h
    injection h with h2
    obtain ⟨sem, kwr, rfl⟩ := hybrid_candidates_inv db query top_k kww sw
      category content_type results hcand
    exact ⟨sem, kwr, h2.symm⟩

theorem hybrid_search_eq (db : DBEnv) (query : String) (top_k : Nat)
    (kww sw : ℚ) (category content_type : Option String)
    (sem : List SemRow) (kwr : List KwRow)
    (hs : search_chunks db query (top_k * 2) 0.4 category content_type none = .ok sem)
    (hk : keyword_search db query (top_k * 2) category content_type = .ok kwr) :
    hybrid_search db query top_k kww sw category content_type =
      .ok ((sortBySimDesc (mergedItems sem kwr kww sw)).take top_k) := by
  unfold hybrid_search hybrid_candidates
  rw [hs, hk]

/-- C2 amended. If the vector RPC raises but the direct table queries
succeed, hybrid_search does not raise: it returns a ranked list
(descending combined score) in which every candidate carries either the
hard-coded fallback semantic score 0.6 (candidates of the degraded
table-scan leg) or semantic score 0 (keyword-only candidates).  A
keyword-only result with zero semantic contribution for every candidate
is not what the code produces; and when the fallback table query raises
too, the exception propagates to the caller. -/
theorem c2_amended (db : DBEnv) (query : String) (top_k : Nat)
    (kww sw : ℚ) (category content_type : Option String)
    (hr : db.rpcChunks = Except.error ())
    (hc : db.chunksTableFails = false) (hk : db.contentTableFails = false) :
    ∃ l, hybrid_search db query top_k kww sw category content_type = .ok l ∧
      (∀ x ∈ l, x.semantic_score = 0 ∨ x.semantic_score = 0.6) ∧
      l.Pairwise (fun a b => b.similarity ≤ a.similarity) := by
  obtain ⟨sem, hsem_eq, hsem06⟩ :=
    fallback_search_ok db (top_k * 2) category content_type none hc hk
  have hs : search_chunks db query (top_k * 2) 0.4 category content_type none =
      .ok sem := by
    rw [search_chunks_rpc_error db query _ _ _ _ _ hr, hsem_eq]
  obtain ⟨kwr, hkwr⟩ := keyword_search_ok db query (top_k * 2) category content_type hk
  refine ⟨_, hybrid_search_eq db query top_k kww sw category content_type sem kwr
    hs hkwr, ?_, ?_⟩
  · intro x hx
    exact mergedItems_sem_score sem kwr kww sw hsem06 x
      ((mem_sortBySimDesc x _).mp (List.take_subset _ _ hx))
  · exact (sorted_sortBySimDesc _).sublist (List.take_sublist _ _)

theorem c2_amended_witness :
    ∃ l, hybrid_search c2db "zzz" 10 0.3 0.7 none none = .ok l ∧
      (∀ x ∈ l, x.semantic_score = 0 ∨ x.semantic_score = 0.6) ∧
      l.Pairwise (fun a b => b.similarity ≤ a.similarity) :=
  c2_amended c2db "zzz" 10 0.3 0.7 none none rfl rfl rfl

/-- C3 amended. With keyword weight 1 and semantic weight 0 every
candidate hybrid_search returns has combined score equal to its raw
keyword score, and symmetrically with the weights swapped the combined
score equals the raw semantic score; but the returned list is the
re-sorted merged union of both legs, not the keyword (or semantic)
search's own list, whose order and membership it need not match. -/
theorem c3_amended (db : DBEnv) (query : String) (top_k : Nat)
    (category content_type : Option String) :
    (∀ l, hybrid_search db query top_k 1 0 category content_type = .ok l →
      ∀ x ∈ l, x.similarity = x.keyword_score) ∧
    (∀ l, hybrid_search db query top_k 0 1 category content_type = .ok l →
      ∀ x ∈ l, x.similarity = x.semantic_score) := by
  constructor
  · intro l h x hx
    obtain ⟨sem, kwr, rfl⟩ := hybrid_search_inv db query top_k 1 0
      category content_type l h
    have := mergedItems_shape sem kwr 1 0 x
      ((mem_sortBySimDesc x _).mp (List.take_subset _ _ hx))
    simpa using this
  · intro l h x hx
    obtain ⟨sem, kwr, rfl⟩ := hybrid_search_inv db query top_k 0 1
      category content_type l h
    have := mergedItems_shape sem kwr 0 1 x
      ((mem_sortBySimDesc x _).mp (List.take_subset _ _ hx))
    simpa using this

theorem c3_amended_witness :
    (c3list.headD mDummy).similarity = (c3list.headD mDummy).keyword_score :=
  (c3_amended c3db "alpha" 10 none none).1 c3list
    (exceptOk_some _ _ (by with_unfolding_all decide))
    (c3list.headD mDummy) (by with_unfolding_all decide)

/-- C4 amended. The hybrid result list is sorted by combined score in
descending order and truncated to top_k, and every returned candidate's
combined score is its semantic score times the semantic weight plus its
keyword score times the keyword weight; ties, however, keep the merge
insertion order (semantic candidates in backend order, then keyword-only
candidates): the stable sort applies no semantic-score or chunk-index
tie-break. -/
theorem c4_amended (db : DBEnv) (query : String) (top_k : Nat)
    (kww sw : ℚ) (category content_type : Option String) (l : List MItem)
    (h : hybrid_search db query top_k kww sw category content_type = .ok l) :
    l.Pairwise (fun a b => b.similarity ≤ a.similarity) ∧
    l.length ≤ top_k ∧
    ∀ x ∈ l, x.similarity = x.semantic_score * sw + x.keyword_score * kww := by
  obtain ⟨sem, kwr, rfl⟩ := hybrid_search_inv db query top_k kww sw
    category content_type l h
  refine ⟨(sorted_sortBySimDesc _).sublist (List.take_sublist _ _),
    List.length_take_le _ _, ?_⟩
  intro x hx
  exact mergedItems_shape sem kwr kww sw x
    ((mem_sortBySimDesc x _).mp (List.take_subset _ _ hx))

theorem c4_amended_witness :
    c4list.Pairwise (fun a b => b.similarity ≤ a.similarity) ∧
    c4list.length ≤ 10 ∧
    ∀ x ∈ c4list, x.similarity = x.semantic_score * 0.7 + x.keyword_score * 0.3 :=
  c4_amended c4db "zzz" 10 0.3 0.7 none none c4list
    (exceptOk_some _ _ (by with_unfolding_all decide))

theorem c8_grounding_score_range_witness :
    (verify_grounding "xyz" []).grounding_score = 0 :=
  (c8_grounding_score_range "xyz" []).2.2 rfl

/-- C5 counterexample. With the default configuration (chunk size 512,
overlap 50) and a two-paragraph text whose first chunk's 50-character
overlap slice begins with a space, the next chunk is stored stripped of
that space, so the last 50 characters of the first emitted chunk are not
a prefix of the second chunk. -/
theorem c5_counterexample :
    defaultCfg.chunk_overlap < defaultCfg.chunk_size ∧
    (splitParas (pyStrip c5text)).length = 2 ∧
    (chunk_text defaultCfg c5text "text").length = 2 ∧
    List.isPrefixOf
      (lastCharsL ((chunk_text defaultCfg c5text "text").headD
        { text := "", chunk_type := "", start_position := 0, end_position := 0 }).text.data
        defaultCfg.chunk_overlap)
      ((chunk_text defaultCfg c5text "text").getD 1
        { text := "", chunk_type := "", start_position := 0, end_position := 0 }).text.data
      = false := by
  refine ⟨by decide, by with_unfolding_all decide, by with_unfolding_all decide,
    by with_unfolding_all decide⟩

theorem rev_head_append (l₁ l₂ : List Char) (h : l₂ ≠ []) :
    (l₁ ++ l₂).reverse.head? = l₂.reverse.head? := by
  rw [List.reverse_append]
  cases hc : l₂.reverse with
  | nil => exact absurd (List.reverse_eq_nil_iff.mp hc) h
  | cons c r => simp

theorem endsNonWs_suffix (l₁ l₂ : List Char) (h : endsNonWs (l₁ ++ l₂))
    (h2 : l₂ ≠ []) : endsNonWs l₂ := by
  intro c hc
  exact h c (by rw [rev_head_append l₁ l₂ h2]; exact hc)

theorem endsNonWs_append (l₁ l₂ : List Char) (h : endsNonWs l₂) (h2 : l₂ ≠ []) :
    endsNonWs (l₁ ++ l₂) := by
  intro c hc
  exact h c (by rw [← rev_head_append l₁ l₂ h2]; exact hc)

theorem head_dropWhile_not (p : Char → Bool) (l : List Char) :
    ∀ c ∈ (l.dropWhile p).head?, p c = false := by
  induction l with
  | nil => intro c hc; simp [List.dropWhile] at hc
  | cons a t ih =>
    intro c hc
    rw [List.dropWhile_cons] at hc
    split at hc
    · exact ih c hc
    · next hp =>
      simp only [List.head?_cons, Option.mem_def, Option.some.injEq] at hc
      rw [← hc]
      exact Bool.not_eq_true _ ▸ hp

theorem endsNonWs_strip (l : List Char) : endsNonWs (pyStripL l) := by
  intro c hc
  unfold pyStripL at hc
  rw [List.reverse_reverse] at hc
  exact head_dropWhile_not pyIsSpace _ c hc

theorem strip_of_endsNonWs (l : List Char) (h : endsNonWs l) :
    pyStripL l = l.dropWhile pyIsSpace := by
  unfold pyStripL
  by_cases hne : l.dropWhile pyIsSpace = []
  · rw [hne]
    rfl
  · obtain ⟨pre, hpre⟩ := List.dropWhile_suffix (l := l) (p := pyIsSpace)
    have hens : endsNonWs (l.dropWhile pyIsSpace) :=
      endsNonWs_suffix pre _ (by rw [hpre]; exact h) hne
    cases hrev : (l.dropWhile pyIsSpace).reverse with
    | nil => exact absurd (List.reverse_eq_nil_iff.mp hrev) hne
    | cons d0 s0 =>
      have hw : pyIsSpace d0 = false := hens d0 (by rw [hrev]; rfl)
      rw [List.dropWhile_cons, hw]
      simp only [Bool.false_eq_true, if_false]
      rw [← hrev, List.reverse_reverse]

theorem dropWhile_append_of_ne_nil (l r : List Char)
    (h : l.dropWhile pyIsSpace ≠ []) :
    (l ++ r).dropWhile pyIsSpace = l.dropWhile pyIsSpace ++ r := by
  induction l with
  | nil => simp [List.dropWhile] at h
  | cons a t ih =>
    by_cases hp : pyIsSpace a = true
    · rw [List.dropWhile_cons, hp] at h
      simp only [if_true] at h
      rw [List.cons_append, List.dropWhile_cons, List.dropWhile_cons, hp]
      simp only [if_true]
      exact ih h
    · rw [List.cons_append, List.dropWhile_cons, List.dropWhile_cons]
      simp [hp]

theorem dropWhile_ne_nil_of_endsNonWs (l : List Char) (h : endsNonWs l)
    (hne : l ≠ []) : l.dropWhile pyIsSpace ≠ [] := by
  intro hnil
  rw [List.dropWhile_eq_nil_iff] at hnil
  cases hrev : l.reverse with
  | nil => exact hne (List.reverse_eq_nil_iff.mp hrev)
  | cons c r =>
    have hw : pyIsSpace c = false := h c (by rw [hrev]; rfl)
    have hcmem : c ∈ l := by
      have hm : c ∈ l.reverse := by rw [hrev]; exact List.mem_cons_self _ _
      exact List.mem_reverse.mp hm
    have := hnil c hcmem
    rw [hw] at this
    exact Bool.false_ne_true this

theorem lastCharsL_append (pre m : List Char) (k : Nat) (hk : k ≤ m.length) :
    lastCharsL (pre ++ m) k = lastCharsL m k := by
  unfold lastCharsL
  rw [List.length_append]
  have heq : pre.length + m.length - k = pre.length + (m.length - k) := by omega
  rw [heq, ← List.drop_drop, List.drop_left]

theorem lastCharsL_zero (l : List Char) : lastCharsL l 0 = [] := by
  unfold lastCharsL
  rw [Nat.sub_zero, List.drop_length]

theorem lastCharsL_length (l : List Char) (k : Nat) (hk : k ≤ l.length) :
    (lastCharsL l k).length = k := by
  unfold lastCharsL
  rw [List.length_drop]
  omega

theorem endsNonWs_lastCharsL (l : List Char) (k : Nat) (h : endsNonWs l)
    (hk : 0 < k) (hkl : k ≤ l.length) : endsNonWs (lastCharsL l k) := by
  have hsplit : l.take (l.length - k) ++ lastCharsL l k = l :=
    List.take_append_drop _ _
  have hne : lastCharsL l k ≠ [] := by
    intro hcon
    have := lastCharsL_length l k hkl
    rw [hcon] at this
    simp at this
    omega
  exact endsNonWs_suffix _ _ (by rw [hsplit]; exact h) hne

theorem str_ne_empty_iff (s : String) : s ≠ "" ↔ s.data ≠ [] := by
  constructor
  · intro h hcon
    exact h (by cases s; simp at hcon; rw [hcon])
  · intro h hcon
    exact h (by rw [hcon])

theorem chunkTextStep_empty (cfg : ChunkCfg) (ct : String) (st : ChunkLoopState)
    (para0 : String) (h : pyStrip para0 = "") :
    chunkTextStep cfg ct st para0 = st := by
  unfold chunkTextStep
  rw [if_pos h]

theorem chunkTextStep_emit (cfg : ChunkCfg) (ct : String) (st : ChunkLoopState)
    (para0 : String) (hne : ¬ pyStrip para0 = "")
    (hov : st.current_chunk.length + (pyStrip para0).length > cfg.chunk_size ∧
      st.current_chunk ≠ "") :
    chunkTextStep cfg ct st para0 =
      { chunks := st.chunks ++
          [{ text := pyStrip st.current_chunk, chunk_type := ct,
             start_position := st.current_start, end_position := st.position }]
        current_chunk :=
          (if st.current_chunk.length > cfg.chunk_overlap then
            pyTakeRightSlice st.current_chunk cfg.chunk_overlap else "") ++ " " ++
          pyStrip para0
        current_start := st.position -
          (((if st.current_chunk.length > cfg.chunk_overlap then
            pyTakeRightSlice st.current_chunk cfg.chunk_overlap else "").length : Int))
        position := st.position + ((pyStrip para0).length : Int) + 2 } := by
  unfold chunkTextStep
  rw [if_neg hne, if_pos hov]

theorem chunkTextStep_append (cfg : ChunkCfg) (ct : String) (st : ChunkLoopState)
    (para0 : String) (hne : ¬ pyStrip para0 = "")
    (hov : ¬ (st.current_chunk.length + (pyStrip para0).length > cfg.chunk_size ∧
      st.current_chunk ≠ ""))
    (hcur : st.current_chunk ≠ "") :
    chunkTextStep cfg ct st para0 =
      { st with
        current_chunk := st.current_chunk ++ "\n\n" ++ pyStrip para0
        position := st.position + ((pyStrip para0).length : Int) + 2 } := by
  unfold chunkTextStep
  rw [if_neg hne, if_neg hov, if_pos hcur]

theorem chunkTextStep_fresh (cfg : ChunkCfg) (ct : String) (st : ChunkLoopState)
    (para0 : String) (hne : ¬ pyStrip para0 = "")
    (hcur : st.current_chunk = "") :
    chunkTextStep cfg ct st para0 =
      { chunks := st.chunks
        current_chunk := pyStrip para0
        current_start := st.position
        position := st.position + ((pyStrip para0).length : Int) + 2 } := by
  unfold chunkTextStep
  rw [if_neg hne, if_neg (fun hcon => hcon.2 hcur), if_neg (fun hcon => hcon hcur)]

theorem strip_data (s : String) : (pyStrip s).data = pyStripL s.data := rfl

theorem chunkTextStep_inv (cfg : ChunkCfg) (ct : String) (st : ChunkLoopState)
    (para0 : String)
    (h1 : List.Chain' (overlapAdj cfg.chunk_overlap) st.chunks)
    (h2 : st.current_chunk ≠ "" → endsNonWs st.current_chunk.data)
    (h3 : st.chunks ≠ [] → st.current_chunk ≠ "")
    (h4 : ∀ a, st.chunks.getLast? = some a → a.text.length > cfg.chunk_overlap →
      (lastCharsL a.text.data cfg.chunk_overlap).dropWhile pyIsSpace <+:
        st.current_chunk.data.dropWhile pyIsSpace) :
    List.Chain' (overlapAdj cfg.chunk_overlap) (chunkTextStep cfg ct st para0).chunks ∧
    ((chunkTextStep cfg ct st para0).current_chunk ≠ "" →
      endsNonWs (chunkTextStep cfg ct st para0).current_chunk.data) ∧
    ((chunkTextStep cfg ct st para0).chunks ≠ [] →
      (chunkTextStep cfg ct st para0).current_chunk ≠ "") ∧
    (∀ a, (chunkTextStep cfg ct st para0).chunks.getLast? = some a →
      a.text.length > cfg.chunk_overlap →
      (lastCharsL a.text.data cfg.chunk_overlap).dropWhile pyIsSpace <+:
        (chunkTextStep cfg ct st para0).current_chunk.data.dropWhile pyIsSpace) := by
  by_cases hpe : pyStrip para0 = ""
  · rw [chunkTextStep_empty cfg ct st para0 hpe]
    exact ⟨h1, h2, h3, h4⟩
  · have hparane : (pyStrip para0).data ≠ [] := (str_ne_empty_iff _).mp hpe
    have hparaens : endsNonWs (pyStrip para0).data := by
      rw [strip_data]
      exact endsNonWs_strip para0.data
    by_cases hov : st.current_chunk.length + (pyStrip para0).length > cfg.chunk_size ∧
        st.current_chunk ≠ ""
    · rw [chunkTextStep_emit cfg ct st para0 hpe hov]
      obtain ⟨hsize, hcur⟩ := hov
      have hens : endsNonWs st.current_chunk.data := h2 hcur
      have hstripcur : (pyStrip st.current_chunk).data =
          st.current_chunk.data.dropWhile pyIsSpace := by
        rw [strip_data]
        exact strip_of_endsNonWs _ hens
      have hcd : ∀ pref : String, (pref ++ " " ++ pyStrip para0).data =
          (pref.data ++ [' ']) ++ (pyStrip para0).data := by
        intro pref
        rw [String.data_append, String.data_append]
      refine ⟨?_, ?_, ?_, ?_⟩
      · rw [List.chain'_append]
        refine ⟨h1, List.chain'_singleton _, ?_⟩
        intro x hx y hy
        simp only [List.head?_cons, Option.mem_def, Option.some.injEq] at hy
        subst hy
        intro hlen
        dsimp only
        rw [hstripcur]
        exact h4 x (Option.mem_def.mp hx) hlen
      · intro _
        rw [hcd]
        exact endsNonWs_append _ _ hparaens hparane
      · intro _
        rw [str_ne_empty_iff, hcd]
        simp [hparane]
      · intro a ha hlen
        rw [List.getLast?_concat] at ha
        injection ha with ha'
        subst ha'
        dsimp only at hlen ⊢
        by_cases hO : cfg.chunk_overlap = 0
        · rw [hO, lastCharsL_zero]
          exact List.nil_prefix
        · have hOpos : 0 < cfg.chunk_overlap := Nat.pos_of_ne_zero hO
          have hstriplen : cfg.chunk_overlap <
              (st.current_chunk.data.dropWhile pyIsSpace).length := by
            have he : (pyStrip st.current_chunk).data.length =
                (st.current_chunk.data.dropWhile pyIsSpace).length := by
              rw [hstripcur]
            have he2 : (pyStrip st.current_chunk).length =
                (pyStrip st.current_chunk).data.length := rfl
            omega
          have hcurlen : cfg.chunk_overlap < st.current_chunk.data.length :=
            lt_of_lt_of_le hstriplen (List.dropWhile_sublist _).length_le
          have hcond : st.current_chunk.length > cfg.chunk_overlap := hcurlen
          rw [if_pos hcond]
          have hslice : pyTakeRightSlice st.current_chunk cfg.chunk_overlap =
              String.mk (lastCharsL st.current_chunk.data cfg.chunk_overlap) := by
            unfold pyTakeRightSlice lastCharsL
            rw [if_neg hO]
          obtain ⟨pre, hpre⟩ :=
            List.dropWhile_suffix (l := st.current_chunk.data) (p := pyIsSpace)
          have hagree : lastCharsL (st.current_chunk.data.dropWhile pyIsSpace)
              cfg.chunk_overlap = lastCharsL st.current_chunk.data cfg.chunk_overlap := by
            have hag := lastCharsL_append pre (st.current_chunk.data.dropWhile pyIsSpace)
              cfg.chunk_overlap (le_of_lt hstriplen)
            rw [hpre] at hag
            exact hag.symm
          rw [hstripcur, hagree, hslice, hcd]
          have hlwne : (lastCharsL st.current_chunk.data cfg.chunk_overlap).dropWhile
              pyIsSpace ≠ [] := by
            apply dropWhile_ne_nil_of_endsNonWs
            · exact endsNonWs_lastCharsL _ _ hens hOpos (le_of_lt hcurlen)
            · intro hcon
              have hl := lastCharsL_length st.current_chunk.data cfg.chunk_overlap
                (le_of_lt hcurlen)
              rw [hcon] at hl
              simp at hl
              omega
          rw [List.append_assoc, dropWhile_append_of_ne_nil _ _ hlwne]
          exact List.prefix_append _ _
    · by_cases hcur : st.current_chunk = ""
      · rw [chunkTextStep_fresh cfg ct st para0 hpe hcur]
        have hchunks : st.chunks = [] := by
          by_contra hc
          exact (h3 hc) hcur
        refine ⟨h1, ?_, ?_, ?_⟩
        · intro _
          exact hparaens
        · intro _
          exact hpe
        · intro a ha
          rw [hchunks] at ha
          simp at ha
      · rw [chunkTextStep_append cfg ct st para0 hpe hov hcur]
        have hens : endsNonWs st.current_chunk.data := h2 hcur
        have hdne : st.current_chunk.data.dropWhile pyIsSpace ≠ [] :=
          dropWhile_ne_nil_of_endsNonWs _ hens ((str_ne_empty_iff _).mp hcur)
        have hdata : (st.current_chunk ++ "\n\n" ++ pyStrip para0).data =
            st.current_chunk.data ++ ('\n' :: '\n' :: (pyStrip para0).data) := by
          rw [String.data_append, String.data_append]
          simp
        have hdata2 : (st.current_chunk ++ "\n\n" ++ pyStrip para0).data =
            (st.current_chunk.data ++ ['\n', '\n']) ++ (pyStrip para0).data := by
          rw [hdata, List.append_assoc]
          simp
        refine ⟨h1, ?_, ?_, ?_⟩
        · intro _
          rw [hdata2]
          exact endsNonWs_append _ _ hparaens hparane
        · intro _
          rw [str_ne_empty_iff, hdata2]
          simp [hparane]
        · intro a ha hlen
          have hp := h4 a ha hlen
          rw [hdata, dropWhile_append_of_ne_nil _ _ hdne]
          exact hp.trans (List.prefix_append _ _)

theorem chunkTextLoop_inv (cfg : ChunkCfg) (ct : String) (paras : List String) :
    ∀ st : ChunkLoopState,
      List.Chain' (overlapAdj cfg.chunk_overlap) st.chunks →
      (st.current_chunk ≠ "" → endsNonWs st.current_chunk.data) →
      (st.chunks ≠ [] → st.current_chunk ≠ "") →
      (∀ a, st.chunks.getLast? = some a → a.text.length > cfg.chunk_overlap →
        (lastCharsL a.text.data cfg.chunk_overlap).dropWhile pyIsSpace <+:
          st.current_chunk.data.dropWhile pyIsSpace) →
      List.Chain' (overlapAdj cfg.chunk_overlap)
        (paras.foldl (chunkTextStep cfg ct) st).chunks ∧
      ((paras.foldl (chunkTextStep cfg ct) st).current_chunk ≠ "" →
        endsNonWs (paras.foldl (chunkTextStep cfg ct) st).current_chunk.data) ∧
      ((paras.foldl (chunkTextStep cfg ct) st).chunks ≠ [] →
        (paras.foldl (chunkTextStep cfg ct) st).current_chunk ≠ "") ∧
      (∀ a, (paras.foldl (chunkTextStep cfg ct) st).chunks.getLast? = some a →
        a.text.length > cfg.chunk_overlap →
        (lastCharsL a.text.data cfg.chunk_overlap).dropWhile pyIsSpace <+:
          (paras.foldl (chunkTextStep cfg ct) st).current_chunk.data.dropWhile
            pyIsSpace) := by
  induction paras with
  | nil => intro st ha hb hc hd; exact ⟨ha, hb, hc, hd⟩
  | cons p t ih =>
    intro st ha hb hc hd
    rw [List.foldl_cons]
    obtain ⟨ha2, hb2, hc2, hd2⟩ := chunkTextStep_inv cfg ct st p ha hb hc hd
    exact ih (chunkTextStep cfg ct st p) ha2 hb2 hc2 hd2

/-- C5 amended. Adjacent chunks of the paragraph sliding window overlap
as follows: whenever an emitted chunk is longer than the configured
overlap, its last overlap-many characters, after discarding any leading
whitespace of that slice, are a prefix of the next chunk.  The full
slice itself is a prefix only when it does not begin with whitespace,
because the code strips each accumulated chunk before storing it; and a
chunk no longer than the overlap guarantees no shared characters at all. -/
theorem c5_amended (cfg : ChunkCfg) (text chunk_type : String) :
    List.Chain' (overlapAdj cfg.chunk_overlap) (chunk_text cfg text chunk_type) := by
  unfold chunk_text
  split
  · split
    · exact List.chain'_singleton _
    · exact List.chain'_nil
  · obtain ⟨ha, hb, hc, hd⟩ := chunkTextLoop_inv cfg chunk_type
      (splitParas (pyStrip text))
      { chunks := [], current_chunk := "", current_start := 0, position := 0 }
      List.chain'_nil (fun h => absurd rfl h) (fun h => absurd rfl h)
      (fun a ha2 => by simp at ha2)
    dsimp only
    split
    · next hne =>
      rw [List.chain'_append]
      refine ⟨ha, List.chain'_singleton _, ?_⟩
      intro x hx y hy
      simp only [List.head?_cons, Option.mem_def, Option.some.injEq] at hy
      subst hy
      intro hlen
      dsimp only
      have hcurne : ((splitParas (pyStrip text)).foldl (chunkTextStep cfg chunk_type)
          { chunks := [], current_chunk := "", current_start := 0,
            position := 0 }).current_chunk ≠ "" := by
        intro hcon
        apply hne
        rw [hcon]
        rfl
      rw [strip_data, strip_of_endsNonWs _ (hb hcurne)]
      exact hd x (Option.mem_def.mp hx) hlen
    · exact ha
